import Mathlib

/-
Verification of the ERC-20 module parameter validation logic
(x/erc20/types/params.go): the Params data model, its constructor and
default, the validation pipeline (ValidateBool, ValidatePrecompiles,
validatePrecompilesUniqueness, Params.Validate) and the membership
predicates (IsNativePrecompile, IsDynamicPrecompile, isAddrIncluded).

Addresses are modelled as their canonical 20-byte form (a list of 20
byte values); the external collaborators (address well-formedness
check, hex-to-address canonicalizer, checksummed rendering) are
modelled from the spec's collaborator contracts, as noted on each
definition.
-/

/-- A canonical chain address: its fixed-width binary form, a list of
20 byte values (each < 256). Mirrors the fixed-width address type used
by the source (common.Address). -/
abbrev Address := List Nat

/-- Numeric value of a hexadecimal digit character (0-9, a-f, A-F by
code point), or none. -/
def hexDigitVal (c : Char) : Option Nat :=
  if 48 ≤ c.toNat ∧ c.toNat ≤ 57 then some (c.toNat - 48)
  else if 97 ≤ c.toNat ∧ c.toNat ≤ 102 then some (c.toNat - 97 + 10)
  else if 65 ≤ c.toNat ∧ c.toNat ≤ 70 then some (c.toNat - 65 + 10)
  else none

/-- Whether a character is a hexadecimal digit. -/
def isHexDigit (c : Char) : Bool :=
  (hexDigitVal c).isSome

/-- Whether a character sequence starts with a 0x or 0X marker. -/
def has0x : List Char → Bool
  | '0' :: c :: _ => c == 'x' || c == 'X'
  | _ => false

/-- Lenient hex decoding: consumes digit pairs into bytes and stops at
the first character pair that is not two hex digits, returning the
bytes decoded so far (the semantics of the collaborator's hex decoder,
whose error is ignored by the canonicalizer). -/
def decodeHexLoose : List Char → List Nat
  | c1 :: c2 :: rest =>
    match hexDigitVal c1, hexDigitVal c2 with
    | some hi, some lo => (16 * hi + lo) :: decodeHexLoose rest
    | _, _ => []
  | _ => []

/-- Strip an optional 0x marker from a character sequence. -/
def dropHexMarker (cs : List Char) : List Char :=
  if has0x cs then cs.drop 2 else cs

/-- Left-pad an odd-length digit sequence with a zero digit. -/
def padOdd (cs : List Char) : List Char :=
  if cs.length % 2 = 1 then '0' :: cs else cs

/-- Fit a byte sequence into the fixed address width: keep the last 20
bytes and left-pad with zero bytes. -/
def toAddressBytes (bs : List Nat) : Address :=
  let bs2 := if 20 < bs.length then bs.drop (bs.length - 20) else bs
  List.replicate (20 - bs2.length) 0 ++ bs2

/-- Modelled from the spec: the address canonicalizer collaborator
(§6, common.HexToAddress, not part of this repository), which maps an
address string to its fixed-width canonical binary representation. It
strips an optional 0x marker, left-pads an odd-length digit string
with a zero digit, decodes hex leniently, and keeps the last 20 bytes,
left-padding with zero bytes; it is total: a malformed string still
yields a 20-byte value, with no well-formedness check. -/
def hexToAddress (s : String) : Address :=
  toAddressBytes (decodeHexLoose (padOdd (dropHexMarker s.data)))

/-- Lowercase hexadecimal digit character for a value below 16. -/
def hexDigitChar (n : Nat) : Char :=
  if n < 10 then Char.ofNat (48 + n) else Char.ofNat (97 + n - 10)

/-- Two hex digit characters of a byte value. -/
def byteToHex (b : Nat) : List Char :=
  [hexDigitChar (b / 16), hexDigitChar (b % 16)]

/-- Hex digit characters of a byte sequence. -/
def addressHexChars : List Nat → List Char
  | [] => []
  | b :: rest => byteToHex b ++ addressHexChars rest

/-- Modelled from the spec: the canonicalizer collaborator's
deterministic checksummed string rendering of an address (§6,
Address.Hex, not part of this repository). The EIP-55 rendering mixes
the letter case of the hex digits according to a Keccak-256 hash; it
is modelled here as the plain hex rendering, which has the same two
observable properties — it is a deterministic and injective function
of the 20 address bytes — and is only ever used as a set key. -/
def addressHex (a : Address) : String :=
  String.mk ('0' :: 'x' :: addressHexChars a)

/-- Modelled from the spec: the address well-formedness collaborator
(§1/§6, types.ValidateAddress — code of this repository that is not
under src/): a well-formed chain address is an optional 0x marker
followed by exactly 40 hexadecimal digits. -/
def isHexAddress (s : String) : Bool :=
  let cs0 := s.data
  let cs1 := if has0x cs0 then cs0.drop 2 else cs0
  cs1.length == 40 && cs1.all isHexDigit

/-- Lexicographic comparison of character sequences, the semantics of
the Go string comparison used by slices.Sort and slices.IsSorted
(byte-wise lexicographic order on the UTF-8 encoding, which coincides
with lexicographic order on the code points). -/
def strLtChars : List Char → List Char → Bool
  | _, [] => false
  | [], _ :: _ => true
  | a :: as, b :: bs =>
    if a < b then true else if b < a then false else strLtChars as bs

/-- Strict lexicographic order on strings, the Go string less-than. -/
def strLt (a b : String) : Bool :=
  strLtChars a.data b.data

/-- Non-strict lexicographic order on strings. -/
def strLe (a b : String) : Bool :=
  !strLt b a

/-- The validation errors that this core can report, each carrying
the data the source formats into the error message. -/
inductive Err where
  | typeMismatch (typeName : String)
  | invalidAddress (s : String)
  | invalidPrecompile (s : String)
  | unsorted (l : List String)
  | duplicate (a : Address)
deriving DecidableEq

/-- Modelled from the spec: the address well-formedness collaborator's
error contract — fails iff the string is not a well-formed chain
address. -/
def validateAddress (s : String) : Option Err :=
  if isHexAddress s then none else some (Err.invalidAddress s)

/-- A dynamically-typed value at a validation boundary (the Go
interface argument of ValidateBool, ValidatePrecompiles and
validatePrecompilesUniqueness). -/
inductive GoValue where
  | bool (b : Bool)
  | strList (l : List String)
  | addrList (l : List Address)

/-- The dynamic type name of a value, as formatted into TypeMismatch
errors. -/
def goTypeName : GoValue → String
  | GoValue.bool _ => "bool"
  | GoValue.strList _ => "[]string"
  | GoValue.addrList _ => "[]common.Address"

/-- The Params record: the module's parameter set. -/
structure Params where
  EnableErc20 : Bool
  NativePrecompiles : List String
  DynamicPrecompiles : List String
  PermissionlessRegistration : Bool
deriving DecidableEq

/-- Insertion of a string into a list, keeping ascending order. -/
def insertStr (s : String) : List String → List String
  | [] => [s]
  | t :: rest => if strLe s t then s :: t :: rest else t :: insertStr s rest

/-- Ascending sort of a string list, the semantics of slices.Sort.
Since string order is a linear (hence antisymmetric) order, the sorted
permutation is unique, so the choice of sorting algorithm is
immaterial to the result. -/
def sortStrings : List String → List String
  | [] => []
  | s :: rest => insertStr s (sortStrings rest)

/-- NewParams creates a new Params object, sorting both precompile
lists ascending before storing them. -/
def NewParams (enableErc20 : Bool) (nativePrecompiles : List String)
    (dynamicPrecompiles : List String) (permissionlessRegistration : Bool) : Params :=
  { EnableErc20 := enableErc20
    NativePrecompiles := sortStrings nativePrecompiles
    DynamicPrecompiles := sortStrings dynamicPrecompiles
    PermissionlessRegistration := permissionlessRegistration }

/-- The process-wide default native precompile list (declared empty in
the source). -/
def DefaultNativePrecompiles : List String := []

/-- The process-wide default dynamic precompile list (declared empty
in the source). -/
def DefaultDynamicPrecompiles : List String := []

/-- DefaultParams returns the baseline configuration. -/
def DefaultParams : Params :=
  { EnableErc20 := true
    NativePrecompiles := DefaultNativePrecompiles
    DynamicPrecompiles := DefaultDynamicPrecompiles
    PermissionlessRegistration := true }

/-- ValidateBool succeeds iff the dynamically-typed input is a
boolean. -/
def ValidateBool (i : GoValue) : Option Err :=
  match i with
  | GoValue.bool _ => none
  | v => some (Err.typeMismatch (goTypeName v))

/-- The element loop of ValidatePrecompiles: validates each string
with the address collaborator, short-circuiting with an
invalid-precompile error naming the first offending string, and
collects the canonical address of each validated string in input
order. -/
def validatePrecompilesLoop : List String → Except Err (List Address)
  | [] => Except.ok []
  | precompile :: rest =>
    match validateAddress precompile with
    | some _ => Except.error (Err.invalidPrecompile precompile)
    | none =>
      match validatePrecompilesLoop rest with
      | Except.error e => Except.error e
      | Except.ok addrs => Except.ok (hexToAddress precompile :: addrs)

/-- Non-strict ascending sortedness of a string list, the semantics of
slices.IsSorted: no element is less than its predecessor. -/
def goIsSortedStr : List String → Bool
  | a :: b :: rest => if strLt b a then false else goIsSortedStr (b :: rest)
  | _ => true

/-- ValidatePrecompiles checks that the input is a string list whose
elements are all valid addresses and whose original string sequence is
sorted, returning the canonical addresses in input order. -/
def ValidatePrecompiles (i : GoValue) : Except Err (List Address) :=
  match i with
  | GoValue.strList precompiles =>
    match validatePrecompilesLoop precompiles with
    | Except.error e => Except.error e
    | Except.ok precAddrs =>
      if goIsSortedStr precompiles then Except.ok precAddrs
      else Except.error (Err.unsorted precompiles)
  | v => Except.error (Err.typeMismatch (goTypeName v))

/-- The scan loop of validatePrecompilesUniqueness: walks the address
list keeping the set of checksummed renderings seen so far and fails
with a duplicate-precompile error naming the address at the first
repeat. -/
def uniquenessLoop : List Address → List String → Option Err
  | [], _ => none
  | precompile :: rest, seen =>
    if addressHex precompile ∈ seen then some (Err.duplicate precompile)
    else uniquenessLoop rest (addressHex precompile :: seen)

/-- validatePrecompilesUniqueness checks that the input is an address
list with no duplicate, comparing addresses by their checksummed
rendering. -/
def validatePrecompilesUniqueness (i : GoValue) : Option Err :=
  match i with
  | GoValue.addrList precompiles => uniquenessLoop precompiles []
  | v => some (Err.typeMismatch (goTypeName v))

/-- Params.Validate: the aggregate validator, mirroring the source's
sequence of early returns; the combined uniqueness scan runs over the
dynamic canonical addresses followed by the native ones. -/
def Params.Validate (p : Params) : Option Err :=
  match ValidateBool (GoValue.bool p.EnableErc20) with
  | some e => some e
  | none =>
    match ValidatePrecompiles (GoValue.strList p.NativePrecompiles) with
    | Except.error e => some e
    | Except.ok npAddrs =>
      match ValidatePrecompiles (GoValue.strList p.DynamicPrecompiles) with
      | Except.error e => some e
      | Except.ok dpAddrs =>
        match ValidateBool (GoValue.bool p.PermissionlessRegistration) with
        | some e => some e
        | none => validatePrecompilesUniqueness (GoValue.addrList (dpAddrs ++ npAddrs))

/-- isAddrIncluded checks whether the canonical form of some string in
the list equals the provided address, comparing address bytes rather
than strings. -/
def isAddrIncluded (addr : Address) (strAddrs : List String) : Bool :=
  match strAddrs with
  | [] => false
  | sa :: rest =>
    if hexToAddress sa = addr then true else isAddrIncluded addr rest

/-- IsNativePrecompile checks if the provided address is within the
native precompiles. -/
def Params.IsNativePrecompile (p : Params) (addr : Address) : Bool :=
  isAddrIncluded addr p.NativePrecompiles

/-- IsDynamicPrecompile checks if the provided address is within the
dynamic precompiles. -/
def Params.IsDynamicPrecompile (p : Params) (addr : Address) : Bool :=
  isAddrIncluded addr p.DynamicPrecompiles

/-- The data-model invariants of the spec (§3), stated in the spec's
words: every string in both precompile lists is a well-formed chain
address, each list independently is sorted in strict ascending
lexicographic order of its string form, and the union of the two
lists, compared by canonical address, contains no duplicates. -/
def ParamsValidSpec (p : Params) : Prop :=
  (∀ s ∈ p.NativePrecompiles, isHexAddress s = true) ∧
  (∀ s ∈ p.DynamicPrecompiles, isHexAddress s = true) ∧
  List.Pairwise (· < ·) p.NativePrecompiles ∧
  List.Pairwise (· < ·) p.DynamicPrecompiles ∧
  ((p.NativePrecompiles ++ p.DynamicPrecompiles).map hexToAddress).Nodup

/-- Scan for the first repeated element: walks the list keeping the
elements already seen and returns the first element equal (by
canonical byte identity) to an earlier one. -/
def firstRepeatAux : List Address → List Address → Option Address
  | [], _ => none
  | a :: rest, seen =>
    if a ∈ seen then some a else firstRepeatAux rest (a :: seen)

/-- The first element of the list that repeats an earlier one, by
canonical byte identity, if any: the address the spec says a
duplicate-precompile failure must name. -/
def firstRepeat (l : List Address) : Option Address :=
  firstRepeatAux l []

theorem strLtChars_iff_lt : ∀ x y : List Char, strLtChars x y = true ↔ x < y := by
  intro x
  induction x with
  | nil =>
    intro y
    cases y with
    | nil =>
      constructor
      · intro h; simp [strLtChars] at h
      · intro h; cases h
    | cons b bs =>
      constructor
      · intro _; exact List.Lex.nil
      · intro _; rfl
  | cons a as ih =>
    intro y
    cases y with
    | nil =>
      constructor
      · intro h; simp [strLtChars] at h
      · intro h; cases h
    | cons b bs =>
      constructor
      · intro h
        by_cases hab : a < b
        · exact List.Lex.rel hab
        · by_cases hba : b < a
          · simp [strLtChars, hab, hba] at h
          · have heq : a = b := le_antisymm (le_of_not_lt hba) (le_of_not_lt hab)
            subst heq
            exact List.Lex.cons ((ih bs).mp (by simpa [strLtChars, hab] using h))
      · intro h
        cases h with
        | rel hab => simp [strLtChars, hab]
        | cons htl =>
          simp only [strLtChars, if_neg (lt_irrefl a)]
          exact (ih bs).mpr htl

theorem strLt_iff_lt (a b : String) : strLt a b = true ↔ a < b := by
  rw [String.lt_iff_toList_lt]
  exact strLtChars_iff_lt a.toList b.toList

theorem strLe_iff_le (a b : String) : strLe a b = true ↔ a ≤ b := by
  simp only [strLe, Bool.not_eq_true']
  rw [← not_lt (a := b) (b := a), ← strLt_iff_lt]
  simp

theorem insertStr_eq (s : String) (l : List String) :
    insertStr s l = List.orderedInsert (· ≤ ·) s l := by
  induction l with
  | nil => rfl
  | cons t rest ih =>
    simp only [insertStr, List.orderedInsert]
    exact if_congr (strLe_iff_le s t) rfl (by rw [ih])

theorem sortStrings_eq (l : List String) :
    sortStrings l = List.insertionSort (· ≤ ·) l := by
  induction l with
  | nil => rfl
  | cons s rest ih => simp only [sortStrings, List.insertionSort, ih, insertStr_eq]

theorem hexDigitVal_lt {c : Char} {n : Nat} (h : hexDigitVal c = some n) : n < 16 := by
  unfold hexDigitVal at h
  split at h
  · next hc => injection h with h; omega
  · split at h
    · next hc => injection h with h; omega
    · split at h
      · next hc => injection h with h; omega
      · exact absurd h (by simp)

theorem decodeHexLoose_lt : ∀ (cs : List Char), ∀ b ∈ decodeHexLoose cs, b < 256
  | [] => by simp [decodeHexLoose]
  | [c] => by simp [decodeHexLoose]
  | c1 :: c2 :: rest => by
    intro b hb
    unfold decodeHexLoose at hb
    cases h1 : hexDigitVal c1 with
    | none => rw [h1] at hb; simp at hb
    | some hi =>
      cases h2 : hexDigitVal c2 with
      | none => rw [h1, h2] at hb; simp at hb
      | some lo =>
        rw [h1, h2] at hb
        simp only [List.mem_cons] at hb
        cases hb with
        | inl heq =>
          have hhi := hexDigitVal_lt h1
          have hlo := hexDigitVal_lt h2
          omega
        | inr hmem => exact decodeHexLoose_lt rest b hmem

theorem toAddressBytes_length (bs : List Nat) : (toAddressBytes bs).length = 20 := by
  unfold toAddressBytes
  by_cases h : 20 < bs.length
  · simp [h, List.length_drop]
    omega
  · simp [h, List.length_replicate]
    omega

theorem toAddressBytes_mem {bs : List Nat} {b : Nat} (h : b ∈ toAddressBytes bs) :
    b = 0 ∨ b ∈ bs := by
  unfold toAddressBytes at h
  rcases List.mem_append.mp h with h | h
  · exact Or.inl (List.eq_of_mem_replicate h)
  · by_cases hl : 20 < bs.length
    · rw [if_pos hl] at h
      exact Or.inr (List.mem_of_mem_drop h)
    · rw [if_neg hl] at h
      exact Or.inr h

theorem hexToAddress_length (s : String) : (hexToAddress s).length = 20 :=
  toAddressBytes_length _

theorem hexToAddress_mem_lt (s : String) : ∀ b ∈ hexToAddress s, b < 256 := by
  intro b hb
  rcases toAddressBytes_mem hb with h | h
  · omega
  · exact decodeHexLoose_lt _ b h

theorem hexDigitChar_inj : ∀ m, m < 16 → ∀ n, n < 16 → hexDigitChar m = hexDigitChar n → m = n := by
  decide

theorem byteToHex_inj {b1 b2 : Nat} (h1 : b1 < 256) (h2 : b2 < 256)
    (h : byteToHex b1 = byteToHex b2) : b1 = b2 := by
  unfold byteToHex at h
  injection h with hhi h
  injection h with hlo _
  have e1 : b1 / 16 = b2 / 16 := hexDigitChar_inj _ (by omega) _ (by omega) hhi
  have e2 : b1 % 16 = b2 % 16 := hexDigitChar_inj _ (by omega) _ (by omega) hlo
  omega

theorem addressHexChars_inj : ∀ (a b : List Nat), a.length = b.length →
    (∀ x ∈ a, x < 256) → (∀ x ∈ b, x < 256) →
    addressHexChars a = addressHexChars b → a = b
  | [], [], _, _, _, _ => rfl
  | [], _ :: _, h, _, _, _ => by simp at h
  | _ :: _, [], h, _, _, _ => by simp at h
  | x :: xs, y :: ys, hlen, hxa, hxb, h => by
    unfold addressHexChars at h
    obtain ⟨h1, h2⟩ := List.append_inj h rfl
    have hxy := byteToHex_inj (hxa x (by simp)) (hxb y (by simp)) h1
    subst hxy
    have htl := addressHexChars_inj xs ys (by simpa using hlen)
      (fun z hz => hxa z (by simp [hz])) (fun z hz => hxb z (by simp [hz])) h2
    rw [htl]

theorem addressHex_inj {a b : Address} (hla : a.length = 20) (hlb : b.length = 20)
    (hba : ∀ x ∈ a, x < 256) (hbb : ∀ x ∈ b, x < 256)
    (h : addressHex a = addressHex b) : a = b := by
  unfold addressHex at h
  have hd := congrArg String.data h
  simp only at hd
  injection hd with _ hd
  injection hd with _ hd
  exact addressHexChars_inj a b (hla.trans hlb.symm) hba hbb hd

theorem validatePrecompilesLoop_ok (l : List String) : ∀ (A : List Address),
    validatePrecompilesLoop l = Except.ok A ↔
    ((∀ s ∈ l, isHexAddress s = true) ∧ A = l.map hexToAddress) := by
  induction l with
  | nil =>
    intro A
    simp only [validatePrecompilesLoop, List.map_nil]
    constructor
    · intro h; injection h with h; simp [h.symm]
    · intro h; rw [h.2]
  | cons s rest ih =>
    intro A
    simp only [validatePrecompilesLoop, validateAddress]
    by_cases hs : isHexAddress s
    · rw [if_pos hs]
      cases hrest : validatePrecompilesLoop rest with
      | error e =>
        constructor
        · intro h; exact absurd h (by simp)
        · intro ⟨hwf, hA⟩
          have : validatePrecompilesLoop rest = Except.ok (rest.map hexToAddress) :=
            (ih _).mpr ⟨fun t ht => hwf t (List.mem_cons_of_mem s ht), rfl⟩
          rw [hrest] at this
          exact absurd this (by simp)
      | ok addrs =>
        have hr := (ih addrs).mp hrest
        constructor
        · intro h
          injection h with h
          refine ⟨?_, ?_⟩
          · intro t ht
            rcases List.mem_cons.mp ht with h' | h'
            · rw [h']; exact hs
            · exact hr.1 t h'
          · rw [← h, List.map_cons, hr.2]
        · intro ⟨hwf, hA⟩
          rw [hA, List.map_cons, ← hr.2]
    · rw [if_neg hs]
      constructor
      · intro h; exact absurd h (by simp)
      · intro ⟨hwf, _⟩
        exact absurd (hwf s (List.mem_cons_self s rest)) (by simp [hs])

theorem validatePrecompilesLoop_firstErr : ∀ (pre : List String) (s : String) (post : List String),
    (∀ t ∈ pre, isHexAddress t = true) → isHexAddress s = false →
    validatePrecompilesLoop (pre ++ s :: post) = Except.error (Err.invalidPrecompile s) := by
  intro pre
  induction pre with
  | nil =>
    intro s post _ hs
    simp [validatePrecompilesLoop, validateAddress, hs]
  | cons t rest ih =>
    intro s post hwf hs
    have ht : isHexAddress t = true := hwf t (List.mem_cons_self t rest)
    have hrest := ih s post (fun u hu => hwf u (List.mem_cons_of_mem t hu)) hs
    simp only [List.cons_append, validatePrecompilesLoop, validateAddress, ht, if_pos,
      List.append_eq, hrest]

theorem goIsSortedStr_iff (l : List String) :
    goIsSortedStr l = true ↔ List.Chain' (· ≤ ·) l := by
  induction l with
  | nil => simp [goIsSortedStr]
  | cons a rest ih =>
    cases rest with
    | nil => simp [goIsSortedStr]
    | cons b bs =>
      rw [List.chain'_cons]
      simp only [goIsSortedStr]
      by_cases h : strLt b a = true
      · have hba : b < a := (strLt_iff_lt b a).mp h
        simp [h, not_le_of_lt hba]
      · have hab : a ≤ b := le_of_not_lt (fun hlt => h ((strLt_iff_lt b a).mpr hlt))
        rw [if_neg (by simpa using h), ih]
        simp [hab]

theorem uniquenessLoop_none (l : List Address) : ∀ (seen : List String),
    uniquenessLoop l seen = none ↔
    ((l.map addressHex).Nodup ∧ ∀ a ∈ l, addressHex a ∉ seen) := by
  induction l with
  | nil => intro seen; simp [uniquenessLoop]
  | cons a rest ih =>
    intro seen
    simp only [uniquenessLoop]
    by_cases h : addressHex a ∈ seen
    · rw [if_pos h]
      constructor
      · intro hc; exact absurd hc (by simp)
      · intro ⟨_, hmem⟩
        exact absurd h (hmem a (List.mem_cons_self a rest))
    · rw [if_neg h, ih]
      simp only [List.map_cons, List.nodup_cons, List.mem_cons]
      constructor
      · intro ⟨hnd, hmem⟩
        refine ⟨⟨?_, hnd⟩, ?_⟩
        · intro hin
          rcases List.mem_map.mp hin with ⟨x, hx, hex⟩
          exact hmem x hx (Or.inl hex)
        · intro x hx
          rcases hx with hx | hx
          · rw [hx]; exact h
          · intro hin
            exact hmem x hx (Or.inr hin)
      · intro ⟨⟨hnotin, hnd⟩, hmem⟩
        refine ⟨hnd, ?_⟩
        intro x hx hin
        rcases hin with h' | h'
        · exact hnotin (h' ▸ List.mem_map_of_mem addressHex hx)
        · exact hmem x (Or.inr hx) h'

/-- Ordinary addresses: byte lists of the canonical width with byte
values in range, as produced by the canonicalizer. -/
def GoodAddr (x : Address) : Prop :=
  x.length = 20 ∧ ∀ b ∈ x, b < 256

theorem goodAddr_hexToAddress (s : String) : GoodAddr (hexToAddress s) :=
  ⟨hexToAddress_length s, hexToAddress_mem_lt s⟩

theorem addressHex_inj_good {a b : Address} (ha : GoodAddr a) (hb : GoodAddr b)
    (h : addressHex a = addressHex b) : a = b :=
  addressHex_inj ha.1 hb.1 ha.2 hb.2 h

theorem uniquenessLoop_eq_firstRepeatAux : ∀ (l seen : List Address),
    (∀ x ∈ l, GoodAddr x) → (∀ x ∈ seen, GoodAddr x) →
    uniquenessLoop l (seen.map addressHex) = Option.map Err.duplicate (firstRepeatAux l seen)
  | [], _, _, _ => rfl
  | a :: rest, seen, hl, hseen => by
    have hmemiff : addressHex a ∈ seen.map addressHex ↔ a ∈ seen := by
      constructor
      · intro hin
        rcases List.mem_map.mp hin with ⟨x, hx, hex⟩
        have := addressHex_inj_good (hseen x hx) (hl a (List.mem_cons_self a rest)) hex
        rw [← this]; exact hx
      · intro hin
        exact List.mem_map_of_mem addressHex hin
    simp only [uniquenessLoop, firstRepeatAux]
    by_cases h : a ∈ seen
    · rw [if_pos (hmemiff.mpr h), if_pos h]
      rfl
    · rw [if_neg (fun hc => h (hmemiff.mp hc)), if_neg h]
      have := uniquenessLoop_eq_firstRepeatAux rest (a :: seen)
        (fun x hx => hl x (List.mem_cons_of_mem a hx))
        (fun x hx => by
          rcases List.mem_cons.mp hx with h' | h'
          · rw [h']; exact hl a (List.mem_cons_self a rest)
          · exact hseen x h')
      simpa using this

theorem firstRepeatAux_none : ∀ (l seen : List Address),
    firstRepeatAux l seen = none → l.Nodup ∧ ∀ a ∈ l, a ∉ seen
  | [], _, _ => ⟨List.nodup_nil, by simp⟩
  | a :: rest, seen, h => by
    simp only [firstRepeatAux] at h
    by_cases hm : a ∈ seen
    · rw [if_pos hm] at h; exact absurd h (by simp)
    · rw [if_neg hm] at h
      obtain ⟨hnd, hmem⟩ := firstRepeatAux_none rest (a :: seen) h
      refine ⟨List.nodup_cons.mpr ⟨?_, hnd⟩, ?_⟩
      · intro hin
        exact (hmem a hin) (List.mem_cons_self a seen)
      · intro x hx
        rcases List.mem_cons.mp hx with h' | h'
        · rw [h']; exact hm
        · intro hin
          exact (hmem x h') (List.mem_cons_of_mem a hin)

theorem firstRepeat_isSome {l : List Address} (h : ¬ l.Nodup) :
    (firstRepeat l).isSome = true := by
  cases hf : firstRepeat l with
  | none => exact absurd (firstRepeatAux_none l [] hf).1 h
  | some a => rfl

theorem isAddrIncluded_iff (addr : Address) : ∀ (l : List String),
    isAddrIncluded addr l = true ↔ ∃ sa ∈ l, hexToAddress sa = addr := by
  intro l
  induction l with
  | nil => simp [isAddrIncluded]
  | cons sa rest ih =>
    simp only [isAddrIncluded]
    by_cases h : hexToAddress sa = addr
    · simp [h]
    · rw [if_neg h, ih]
      constructor
      · intro ⟨x, hx, he⟩; exact ⟨x, List.mem_cons_of_mem sa hx, he⟩
      · intro ⟨x, hx, he⟩
        rcases List.mem_cons.mp hx with h' | h'
        · exact absurd (h' ▸ he) h
        · exact ⟨x, h', he⟩

theorem ValidatePrecompiles_ok_iff (l : List String) : ∀ (A : List Address),
    ValidatePrecompiles (GoValue.strList l) = Except.ok A ↔
    ((∀ s ∈ l, isHexAddress s = true) ∧ List.Chain' (· ≤ ·) l ∧ A = l.map hexToAddress) := by
  intro A
  cases hl : validatePrecompilesLoop l with
  | error e =>
    simp only [ValidatePrecompiles, hl]
    constructor
    · intro h; exact absurd h (by simp)
    · intro ⟨hwf, _, _⟩
      have := (validatePrecompilesLoop_ok l (l.map hexToAddress)).mpr ⟨hwf, rfl⟩
      rw [hl] at this
      exact absurd this (by simp)
  | ok addrs =>
    have hr := (validatePrecompilesLoop_ok l addrs).mp hl
    simp only [ValidatePrecompiles, hl]
    by_cases hs : goIsSortedStr l
    · rw [if_pos hs]
      constructor
      · intro h
        injection h with h
        exact ⟨hr.1, (goIsSortedStr_iff l).mp hs, h ▸ hr.2⟩
      · intro ⟨_, _, hA⟩
        rw [hA, ← hr.2]
    · rw [if_neg hs]
      constructor
      · intro h; exact absurd h (by simp)
      · intro ⟨_, hc, _⟩
        exact absurd ((goIsSortedStr_iff l).mpr hc) hs

theorem ValidatePrecompiles_unsorted_iff (l : List String)
    (hwf : ∀ s ∈ l, isHexAddress s = true) :
    ValidatePrecompiles (GoValue.strList l) = Except.error (Err.unsorted l) ↔
    ¬ List.Chain' (· ≤ ·) l := by
  have hl : validatePrecompilesLoop l = Except.ok (l.map hexToAddress) :=
    (validatePrecompilesLoop_ok l (l.map hexToAddress)).mpr ⟨hwf, rfl⟩
  simp only [ValidatePrecompiles, hl]
  by_cases hs : goIsSortedStr l
  · rw [if_pos hs]
    constructor
    · intro h; exact absurd h (by simp)
    · intro hc; exact absurd ((goIsSortedStr_iff l).mp hs) hc
  · rw [if_neg hs]
    constructor
    · intro _; exact fun hc => hs ((goIsSortedStr_iff l).mpr hc)
    · intro _; rfl

theorem Params.validate_eq (p : Params) : p.Validate =
    (match ValidatePrecompiles (GoValue.strList p.NativePrecompiles) with
     | Except.error e => some e
     | Except.ok npAddrs =>
       match ValidatePrecompiles (GoValue.strList p.DynamicPrecompiles) with
       | Except.error e => some e
       | Except.ok dpAddrs =>
         validatePrecompilesUniqueness (GoValue.addrList (dpAddrs ++ npAddrs))) := rfl

theorem nodup_hexmap_iff {L : List Address} (hL : ∀ x ∈ L, GoodAddr x) :
    (L.map addressHex).Nodup ↔ L.Nodup := by
  constructor
  · exact List.Nodup.of_map addressHex
  · intro hnd
    exact hnd.map_on (fun x hx y hy h => addressHex_inj_good (hL x hx) (hL y hy) h)

theorem uniqueness_none_iff {L : List Address} (hL : ∀ x ∈ L, GoodAddr x) :
    validatePrecompilesUniqueness (GoValue.addrList L) = none ↔ L.Nodup := by
  show uniquenessLoop L [] = none ↔ L.Nodup
  rw [uniquenessLoop_none]
  simp [nodup_hexmap_iff hL]

theorem strict_of_chain'_nodup {L : List String} (hc : List.Chain' (· ≤ ·) L)
    (hnd : (L.map hexToAddress).Nodup) : List.Pairwise (· < ·) L := by
  have hp : List.Pairwise (· ≤ ·) L := List.chain'_iff_pairwise.mp hc
  have hne : List.Pairwise (fun a b => hexToAddress a ≠ hexToAddress b) L :=
    List.pairwise_map.mp hnd
  exact (hp.and hne).imp (fun h => lt_of_le_of_ne h.1 (fun he => h.2 (congrArg hexToAddress he)))

theorem chain'_of_strict {L : List String} (hp : List.Pairwise (· < ·) L) :
    List.Chain' (· ≤ ·) L :=
  List.chain'_iff_pairwise.mpr (hp.imp le_of_lt)

theorem goodAddr_of_mem_maps {np dp : List String} :
    ∀ x ∈ dp.map hexToAddress ++ np.map hexToAddress, GoodAddr x := by
  intro x hx
  rcases List.mem_append.mp hx with h | h <;>
    · rcases List.mem_map.mp h with ⟨s, _, he⟩
      exact he ▸ goodAddr_hexToAddress s

theorem validate_none_iff (p : Params) : p.Validate = none ↔ ParamsValidSpec p := by
  rw [Params.validate_eq]
  cases hN : ValidatePrecompiles (GoValue.strList p.NativePrecompiles) with
  | error e =>
    constructor
    · intro h; exact absurd h (by simp)
    · intro ⟨hwfN, _, hsN, _, _⟩
      have := (ValidatePrecompiles_ok_iff p.NativePrecompiles
        (p.NativePrecompiles.map hexToAddress)).mpr ⟨hwfN, chain'_of_strict hsN, rfl⟩
      rw [hN] at this
      exact absurd this (by simp)
  | ok npA =>
    cases hD : ValidatePrecompiles (GoValue.strList p.DynamicPrecompiles) with
    | error e =>
      constructor
      · intro h; exact absurd h (by simp)
      · intro ⟨_, hwfD, _, hsD, _⟩
        have := (ValidatePrecompiles_ok_iff p.DynamicPrecompiles
          (p.DynamicPrecompiles.map hexToAddress)).mpr ⟨hwfD, chain'_of_strict hsD, rfl⟩
        rw [hD] at this
        exact absurd this (by simp)
    | ok dpA =>
      obtain ⟨hwfN, hcN, hnpA⟩ := (ValidatePrecompiles_ok_iff _ npA).mp hN
      obtain ⟨hwfD, hcD, hdpA⟩ := (ValidatePrecompiles_ok_iff _ dpA).mp hD
      subst hnpA hdpA
      rw [uniqueness_none_iff goodAddr_of_mem_maps]
      constructor
      · intro hnd
        have hnd' : ((p.NativePrecompiles ++ p.DynamicPrecompiles).map hexToAddress).Nodup := by
          rw [List.map_append]
          exact List.nodup_append_comm.mp hnd
        exact ⟨hwfN, hwfD,
          strict_of_chain'_nodup hcN (hnd.of_append_right),
          strict_of_chain'_nodup hcD (hnd.of_append_left), hnd'⟩
      · intro ⟨_, _, _, _, hnd⟩
        rw [List.map_append] at hnd
        exact List.nodup_append_comm.mp hnd

theorem sortStrings_sorted (l : List String) : List.Sorted (· ≤ ·) (sortStrings l) := by
  rw [sortStrings_eq]
  exact List.sorted_insertionSort _ l

theorem sortStrings_perm (l : List String) : (sortStrings l).Perm l := by
  rw [sortStrings_eq]
  exact List.perm_insertionSort _ l

theorem sortStrings_congr {l1 l2 : List String} (h : l1.Perm l2) :
    sortStrings l1 = sortStrings l2 := by
  refine List.eq_of_perm_of_sorted ?_ (sortStrings_sorted l1) (sortStrings_sorted l2)
  exact ((sortStrings_perm l1).trans h).trans (sortStrings_perm l2).symm

theorem sortStrings_idem (l : List String) :
    sortStrings (sortStrings l) = sortStrings l := by
  rw [sortStrings_eq (sortStrings l)]
  exact (sortStrings_sorted l).insertionSort_eq

/-- The address strings used in the concrete validation scenarios. -/
def addr01 : String := "0x0000000000000000000000000000000000000001"

def addr02 : String := "0x0000000000000000000000000000000000000002"

/-- An address string whose final hex digit is an uppercase letter. -/
def addrAup : String := "0x000000000000000000000000000000000000000A"

/-- The same address as addrAup rendered with a lowercase final
digit: a different string with the same canonical bytes. -/
def addrAlow : String := "0x000000000000000000000000000000000000000a"

/-- C1: for every Params value p, p.Validate() returns nil if and only
if every invariant of the data model holds for p: every string in both
precompile lists is a well-formed chain address, each list
independently is sorted in strict ascending lexicographic order of its
string form, and the union of the two lists, compared by canonical
address, contains no duplicates. (The sortedness check the code runs
is non-strict, but under the no-duplicate invariant the two readings
coincide, so the equivalence holds as stated.) -/
theorem validate_nil_iff_spec_invariants :
    ∀ p : Params, p.Validate = none ↔ ParamsValidSpec p :=
  fun p => validate_none_iff p

/-- C2 counterexample: a list of two equal well-formed address strings
is not in strict ascending order, yet ValidatePrecompiles does not
fail with the UnsortedPrecompiles error — the code's sortedness check
is non-strict, refuting the claim as stated. -/
theorem unsorted_equal_adjacent_counterexample :
    isHexAddress addr01 = true ∧
    ¬ List.Pairwise (· < ·) [addr01, addr01] ∧
    ValidatePrecompiles (GoValue.strList [addr01, addr01]) ≠
      Except.error (Err.unsorted [addr01, addr01]) := by
  refine ⟨by decide, ?_, ?_⟩
  · intro h
    exact absurd ((List.pairwise_cons.mp h).1 addr01 (List.mem_cons_self _ _)) (lt_irrefl _)
  · intro h
    have hok : ValidatePrecompiles (GoValue.strList [addr01, addr01]) =
        Except.ok [hexToAddress addr01, hexToAddress addr01] := rfl
    rw [hok] at h
    exact Except.noConfusion h

/-- C2 (amended): for every list of well-formed address strings,
ValidatePrecompiles fails with an UnsortedPrecompiles error naming the
full sequence exactly when the original string sequence is not in
non-strict ascending lexicographic order; a list with two equal
adjacent strings passes the sortedness check. -/
theorem unsorted_error_iff_not_weakly_sorted :
    ∀ l : List String, (∀ s ∈ l, isHexAddress s = true) →
    (ValidatePrecompiles (GoValue.strList l) = Except.error (Err.unsorted l) ↔
      ¬ List.Chain' (· ≤ ·) l) :=
  fun l h => ValidatePrecompiles_unsorted_iff l h

/-- C2 witness: a concrete descending two-element list of well-formed
addresses is rejected as unsorted. -/
theorem unsorted_error_iff_not_weakly_sorted_witness :
    ValidatePrecompiles (GoValue.strList [addr02, addr01]) =
      Except.error (Err.unsorted [addr02, addr01]) ↔
    ¬ List.Chain' (· ≤ ·) [addr02, addr01] :=
  unsorted_error_iff_not_weakly_sorted [addr02, addr01] (by decide)

/-- C3: for every Params whose two lists each pass ValidatePrecompiles,
if the combined canonical address sequence (dynamic then native) has a
repeat — an address occurring in both lists or twice in one, by
canonical byte identity — then Validate fails with a
DuplicatePrecompile error naming the address at its first repeat. -/
theorem validate_duplicate_names_first_repeat :
    ∀ (p : Params) (npA dpA : List Address),
    ValidatePrecompiles (GoValue.strList p.NativePrecompiles) = Except.ok npA →
    ValidatePrecompiles (GoValue.strList p.DynamicPrecompiles) = Except.ok dpA →
    ¬ (dpA ++ npA).Nodup →
    p.Validate = Option.map Err.duplicate (firstRepeat (dpA ++ npA)) ∧
    (firstRepeat (dpA ++ npA)).isSome = true := by
  intro p npA dpA hN hD hdup
  obtain ⟨_, _, hnpA⟩ := (ValidatePrecompiles_ok_iff _ npA).mp hN
  obtain ⟨_, _, hdpA⟩ := (ValidatePrecompiles_ok_iff _ dpA).mp hD
  have hgood : ∀ x ∈ dpA ++ npA, GoodAddr x := by
    rw [hnpA, hdpA]
    exact goodAddr_of_mem_maps
  constructor
  · simp only [Params.validate_eq, hN, hD]
    show uniquenessLoop (dpA ++ npA) [] = Option.map Err.duplicate (firstRepeat (dpA ++ npA))
    have := uniquenessLoop_eq_firstRepeatAux (dpA ++ npA) [] hgood (by simp)
    simpa using this
  · exact firstRepeat_isSome hdup

/-- C3 witness: the same address stored in the native list with an
uppercase final digit and in the dynamic list with a lowercase final
digit (identical canonical bytes) makes Validate fail with a
DuplicatePrecompile naming the first repeat. -/
theorem validate_duplicate_names_first_repeat_witness :
    (Params.mk true [addrAup] [addrAlow] true).Validate =
      Option.map Err.duplicate
        (firstRepeat ([hexToAddress addrAlow] ++ [hexToAddress addrAup])) ∧
    (firstRepeat ([hexToAddress addrAlow] ++ [hexToAddress addrAup])).isSome = true :=
  validate_duplicate_names_first_repeat ⟨true, [addrAup], [addrAlow], true⟩
    [hexToAddress addrAup] [hexToAddress addrAlow] rfl rfl (by decide)

/-- C4: for every Params accepted by Validate, the canonical address
of every stored native string is recognized by IsNativePrecompile and
rejected by IsDynamicPrecompile, and symmetrically for the dynamic
list; the predicates compare canonical address bytes, never strings. -/
theorem membership_predicates_respect_validated_sets :
    ∀ p : Params, p.Validate = none →
    (∀ a ∈ p.NativePrecompiles,
        p.IsNativePrecompile (hexToAddress a) = true ∧
        p.IsDynamicPrecompile (hexToAddress a) = false) ∧
    (∀ a ∈ p.DynamicPrecompiles,
        p.IsDynamicPrecompile (hexToAddress a) = true ∧
        p.IsNativePrecompile (hexToAddress a) = false) := by
  intro p h
  obtain ⟨_, _, _, _, hnd⟩ := (validate_none_iff p).mp h
  rw [List.map_append, List.nodup_append] at hnd
  obtain ⟨hndN, hndD, hdisj⟩ := hnd
  constructor
  · intro a ha
    constructor
    · exact (isAddrIncluded_iff _ _).mpr ⟨a, ha, rfl⟩
    · rw [Bool.eq_false_iff]
      intro hq
      rcases (isAddrIncluded_iff _ _).mp hq with ⟨sb, hsb, he⟩
      exact hdisj (List.mem_map_of_mem hexToAddress ha)
        (he ▸ List.mem_map_of_mem hexToAddress hsb)
  · intro a ha
    constructor
    · exact (isAddrIncluded_iff _ _).mpr ⟨a, ha, rfl⟩
    · rw [Bool.eq_false_iff]
      intro hq
      rcases (isAddrIncluded_iff _ _).mp hq with ⟨sb, hsb, he⟩
      exact hdisj (he ▸ List.mem_map_of_mem hexToAddress hsb)
        (List.mem_map_of_mem hexToAddress ha)

/-- C4 witness: on the valid Params with native list [addr01] and
dynamic list [addr02], the membership predicates answer as the claim
states on the canonical addresses of the stored strings. -/
theorem membership_predicates_respect_validated_sets_witness :
    (Params.mk true [addr01] [addr02] true).IsNativePrecompile (hexToAddress addr01) = true ∧
    (Params.mk true [addr01] [addr02] true).IsDynamicPrecompile (hexToAddress addr01) = false ∧
    (Params.mk true [addr01] [addr02] true).IsDynamicPrecompile (hexToAddress addr02) = true ∧
    (Params.mk true [addr01] [addr02] true).IsNativePrecompile (hexToAddress addr02) = false := by
  have h := membership_predicates_respect_validated_sets
    ⟨true, [addr01], [addr02], true⟩ (by decide)
  exact ⟨(h.1 addr01 (by decide)).1, (h.1 addr01 (by decide)).2,
    (h.2 addr02 (by decide)).1, (h.2 addr02 (by decide)).2⟩

/-- C5: Validate evaluates its checks in the fixed order — the
EnableErc20 boolean check (which always passes on the typed field),
then ValidatePrecompiles on the native list, then on the dynamic list,
then the PermissionlessRegistration boolean check, then the uniqueness
scan over the dynamic canonical addresses followed by the native ones;
the first error encountered is returned and later checks are not
performed. -/
theorem validate_check_order_and_short_circuit :
    ∀ p : Params,
    ValidateBool (GoValue.bool p.EnableErc20) = none ∧
    ValidateBool (GoValue.bool p.PermissionlessRegistration) = none ∧
    (∀ e, ValidatePrecompiles (GoValue.strList p.NativePrecompiles) = Except.error e →
      p.Validate = some e) ∧
    (∀ npA e, ValidatePrecompiles (GoValue.strList p.NativePrecompiles) = Except.ok npA →
      ValidatePrecompiles (GoValue.strList p.DynamicPrecompiles) = Except.error e →
      p.Validate = some e) ∧
    (∀ npA dpA, ValidatePrecompiles (GoValue.strList p.NativePrecompiles) = Except.ok npA →
      ValidatePrecompiles (GoValue.strList p.DynamicPrecompiles) = Except.ok dpA →
      p.Validate = validatePrecompilesUniqueness (GoValue.addrList (dpA ++ npA))) := by
  intro p
  refine ⟨rfl, rfl, ?_, ?_, ?_⟩
  · intro e h
    simp only [Params.validate_eq, h]
  · intro npA e hN hD
    simp only [Params.validate_eq, hN, hD]
  · intro npA dpA hN hD
    simp only [Params.validate_eq, hN, hD]

/-- C5 witness: the order facts instantiated at a concrete Params
whose native list is unsorted while its dynamic list contains a
malformed string — the native error is the one reported. -/
theorem validate_check_order_and_short_circuit_witness :
    (Params.mk true [addr02, addr01] ["bad"] true).Validate =
      some (Err.unsorted [addr02, addr01]) := by
  have h := validate_check_order_and_short_circuit ⟨true, [addr02, addr01], ["bad"], true⟩
  exact h.2.2.1 (Err.unsorted [addr02, addr01]) (by rfl)

/-- C6: ValidatePrecompiles checks address well-formedness element by
element and, at the first element rejected by the address-format
collaborator, returns an InvalidAddress-style error naming that
string, without examining later elements and before any sortedness
check; later elements and the ordering of the list are irrelevant. -/
theorem invalid_address_reported_before_sortedness :
    ∀ (pre : List String) (s : String) (post : List String),
    (∀ t ∈ pre, isHexAddress t = true) → isHexAddress s = false →
    ValidatePrecompiles (GoValue.strList (pre ++ s :: post)) =
      Except.error (Err.invalidPrecompile s) := by
  intro pre s post hwf hs
  have hl := validatePrecompilesLoop_firstErr pre s post hwf hs
  simp only [ValidatePrecompiles, hl]

/-- C6 witness: a list that is both unsorted and contains the
malformed first element "not-an-address" fails with the
invalid-precompile error naming that string, not with the unsorted
error. -/
theorem invalid_address_reported_before_sortedness_witness :
    ValidatePrecompiles (GoValue.strList ["not-an-address", addr01]) =
      Except.error (Err.invalidPrecompile "not-an-address") :=
  invalid_address_reported_before_sortedness [] "not-an-address" [addr01]
    (by decide) (by decide)

/-- C7: NewParams stores the input sequences sorted in ascending
lexicographic order (each stored list is a sorted permutation of its
input) and copies the boolean inputs; in particular the concrete
scenario NewParams true [addr02, addr01] [] true stores the native
list as [addr01, addr02] and the resulting Params passes Validate. -/
theorem newParams_sorts_and_preserves_flags :
    ∀ (e pr : Bool) (np dp : List String),
    ((NewParams e np dp pr).EnableErc20 = e ∧
     (NewParams e np dp pr).PermissionlessRegistration = pr ∧
     List.Sorted (· ≤ ·) (NewParams e np dp pr).NativePrecompiles ∧
     (NewParams e np dp pr).NativePrecompiles.Perm np ∧
     List.Sorted (· ≤ ·) (NewParams e np dp pr).DynamicPrecompiles ∧
     (NewParams e np dp pr).DynamicPrecompiles.Perm dp) ∧
    NewParams true [addr02, addr01] [] true =
      Params.mk true [addr01, addr02] [] true ∧
    (NewParams true [addr02, addr01] [] true).Validate = none := by
  intro e pr np dp
  exact ⟨⟨rfl, rfl, sortStrings_sorted np, sortStrings_perm np,
    sortStrings_sorted dp, sortStrings_perm dp⟩, by decide, by decide⟩

/-- C8: NewParams is insensitive to the input ordering of its list
arguments — permuting either input multiset yields the same stored
lists — and applying NewParams to an already-constructed Params's
lists leaves their order unchanged (sorting is idempotent). -/
theorem newParams_insensitive_to_input_order :
    ∀ (e pr e2 pr2 : Bool) (np np2 dp dp2 : List String),
    np.Perm np2 → dp.Perm dp2 →
    NewParams e np dp pr = NewParams e np2 dp2 pr ∧
    (NewParams e2 (NewParams e np dp pr).NativePrecompiles
        (NewParams e np dp pr).DynamicPrecompiles pr2).NativePrecompiles =
      (NewParams e np dp pr).NativePrecompiles ∧
    (NewParams e2 (NewParams e np dp pr).NativePrecompiles
        (NewParams e np dp pr).DynamicPrecompiles pr2).DynamicPrecompiles =
      (NewParams e np dp pr).DynamicPrecompiles := by
  intro e pr e2 pr2 np np2 dp dp2 h1 h2
  refine ⟨?_, ?_, ?_⟩
  · simp only [NewParams, sortStrings_congr h1, sortStrings_congr h2]
  · exact sortStrings_idem np
  · exact sortStrings_idem dp

/-- C8 witness: two permutations of the same two-address multiset
produce equal Params, and resorting the stored lists changes
nothing. -/
theorem newParams_insensitive_to_input_order_witness :
    NewParams true [addr02, addr01] [] true = NewParams true [addr01, addr02] [] true ∧
    (NewParams false (NewParams true [addr02, addr01] [] true).NativePrecompiles
        (NewParams true [addr02, addr01] [] true).DynamicPrecompiles false).NativePrecompiles =
      (NewParams true [addr02, addr01] [] true).NativePrecompiles ∧
    (NewParams false (NewParams true [addr02, addr01] [] true).NativePrecompiles
        (NewParams true [addr02, addr01] [] true).DynamicPrecompiles false).DynamicPrecompiles =
      (NewParams true [addr02, addr01] [] true).DynamicPrecompiles :=
  newParams_insensitive_to_input_order true true false false
    [addr02, addr01] [addr01, addr02] [] [] (by decide) (by decide)

/-- C9: DefaultParams returns the configuration with ERC-20 enabled,
permissionless registration enabled and the process-wide default
precompile lists, which are declared empty; it always passes Validate,
the empty lists pass ValidatePrecompiles, and the empty combined set
passes the uniqueness check vacuously. -/
theorem defaultParams_fields_and_validate_nil :
    DefaultParams = Params.mk true DefaultNativePrecompiles DefaultDynamicPrecompiles true ∧
    DefaultNativePrecompiles = [] ∧
    DefaultDynamicPrecompiles = [] ∧
    DefaultParams.Validate = none ∧
    ValidatePrecompiles (GoValue.strList DefaultNativePrecompiles) = Except.ok [] ∧
    ValidatePrecompiles (GoValue.strList DefaultDynamicPrecompiles) = Except.ok [] ∧
    validatePrecompilesUniqueness (GoValue.addrList []) = none :=
  ⟨rfl, rfl, rfl, rfl, rfl, rfl, rfl⟩

/-- C10: the membership predicates are total on every Params,
validated or not — each stored string canonicalizes to some 20-byte
address with no well-formedness check, membership is exactly the
existence of a stored string with the queried canonical bytes, and on
an empty list each predicate returns false for every query. -/
theorem membership_predicates_total :
    ∀ (p : Params) (addr : Address) (s : String),
    (hexToAddress s).length = 20 ∧
    (p.IsNativePrecompile addr = true ↔
      ∃ sa ∈ p.NativePrecompiles, hexToAddress sa = addr) ∧
    (p.IsDynamicPrecompile addr = true ↔
      ∃ sa ∈ p.DynamicPrecompiles, hexToAddress sa = addr) ∧
    (p.NativePrecompiles = [] → p.IsNativePrecompile addr = false) ∧
    (p.DynamicPrecompiles = [] → p.IsDynamicPrecompile addr = false) := by
  intro p addr s
  refine ⟨hexToAddress_length s, isAddrIncluded_iff addr p.NativePrecompiles,
    isAddrIncluded_iff addr p.DynamicPrecompiles, ?_, ?_⟩
  · intro h
    show isAddrIncluded addr p.NativePrecompiles = false
    rw [h]
    rfl
  · intro h
    show isAddrIncluded addr p.DynamicPrecompiles = false
    rw [h]
    rfl

/-- C10 witness: on a Params whose native list holds a malformed
string and whose dynamic list is empty, the predicates still return
booleans — true for the canonical bytes of the malformed string,
false on the empty list — and a malformed string still canonicalizes
to a 20-byte address. -/
theorem membership_predicates_total_witness :
    (hexToAddress "not-an-address").length = 20 ∧
    (Params.mk true ["zzz"] [] true).IsNativePrecompile (hexToAddress "zzz") = true ∧
    (Params.mk true ["zzz"] [] true).IsDynamicPrecompile (hexToAddress "zzz") = false := by
  have h := membership_predicates_total ⟨true, ["zzz"], [], true⟩ (hexToAddress "zzz") "not-an-address"
  exact ⟨h.1, h.2.1.mpr ⟨"zzz", by decide, rfl⟩, h.2.2.2.2 rfl⟩
